import Mathlib

/-! # old-relic query engine: shallow embedding and verification

Shallow embedding of the query-language parser (src/tui/src/parser.rs), the
structured query type and serializer (src/tui/src/query.rs), the time-series
aggregation and polling worker (src/tui/src/backend.rs), the scheduler
listener (src/tui/src/main.rs), the telemetry clients (src/tui/src/client.rs
and the legacy copy inside backend.rs) and log filtering (src/tui/src/app.rs).

Strings are modelled as Lean strings or character lists; f64 values are
modelled as exact rationals extended with the two signed infinities (the
modelled code paths only compare, never do arithmetic, and never see NaN).
-/

namespace OldRelic

/-- Bool test that `pat` occurs at the start of `s` (character lists);
used to model both nom's `tag` match and Rust's `str::starts_with`. -/
def beginsWith : List Char → List Char → Bool
  | [], _ => true
  | _ :: _, [] => false
  | a :: ta, b :: tb => a == b && beginsWith ta tb

/-- nom `take_until(pat)`: splits `s` as `(taken, rest)` at the first
position where `pat` matches, leaving `pat` at the head of `rest`;
fails (`none`) when `pat` never occurs. -/
def splitUntil (pat : List Char) : List Char → Option (List Char × List Char)
  | [] => if beginsWith pat [] then some ([], []) else none
  | c :: rest =>
    if beginsWith pat (c :: rest) then some ([], c :: rest)
    else
      match splitUntil pat rest with
      | some (taken, rem) => some (c :: taken, rem)
      | none => none

/-- nom `tag(t)`: consume the literal `t` at the head of the input. -/
def tagP (t : List Char) (s : List Char) : Option (List Char) :=
  if beginsWith t s then some (s.drop t.length) else none

/-- Whitespace of Rust `str::trim` restricted to the characters that occur
in query text. -/
def isWS (c : Char) : Bool := c == ' ' || c == '\t' || c == '\n' || c == '\r'

/-- Rust `str::trim` on character lists. -/
def trimChars (s : List Char) : List Char :=
  ((s.dropWhile isWS).reverse.dropWhile isWS).reverse

/-- Bool test that `pat` occurs somewhere inside `s` (substring test),
modelling Rust `str::contains`. -/
def hasSubstr (pat : List Char) : List Char → Bool
  | [] => beginsWith pat []
  | c :: rest => beginsWith pat (c :: rest) || hasSubstr pat rest

/-- parser.rs `parse_timeseries`: `alt((tag("TIMESERIES"), tag("TABLE")))`.
Returns (matched token, remainder). -/
def parse_timeseries (input : List Char) : Option (List Char × List Char) :=
  match tagP "TIMESERIES".toList input with
  | some rem => some ("TIMESERIES".toList, rem)
  | none =>
    match tagP "TABLE".toList input with
    | some rem => some ("TABLE".toList, rem)
    | none => none

/-- parser.rs `parse_limit`: tag "LIMIT" then
`alt((take_until("TIMESERIES"), take_until("TABLE")))`. -/
def parse_limit (input : List Char) : Option (List Char × List Char) :=
  match tagP "LIMIT".toList input with
  | none => none
  | some rem =>
    match splitUntil "TIMESERIES".toList rem with
    | some r => some r
    | none => splitUntil "TABLE".toList rem

/-- parser.rs `parse_until`: tag "UNTIL" then take_until "LIMIT". -/
def parse_until (input : List Char) : Option (List Char × List Char) :=
  match tagP "UNTIL".toList input with
  | none => none
  | some rem => splitUntil "LIMIT".toList rem

/-- parser.rs `parse_since`: tag "SINCE" then take_until "UNTIL". -/
def parse_since (input : List Char) : Option (List Char × List Char) :=
  match tagP "SINCE".toList input with
  | none => none
  | some rem => splitUntil "UNTIL".toList rem

/-- parser.rs `parse_facet`: tag "FACET" then take_until "SINCE". -/
def parse_facet (input : List Char) : Option (List Char × List Char) :=
  match tagP "FACET".toList input with
  | none => none
  | some rem => splitUntil "SINCE".toList rem

/-- parser.rs `parse_where`: tag "WHERE" then take_until "FACET". -/
def parse_where (input : List Char) : Option (List Char × List Char) :=
  match tagP "WHERE".toList input with
  | none => none
  | some rem => splitUntil "FACET".toList rem

/-- parser.rs `parse_select`: tag "SELECT" then take_until "WHERE". -/
def parse_select (input : List Char) : Option (List Char × List Char) :=
  match tagP "SELECT".toList input with
  | none => none
  | some rem => splitUntil "WHERE".toList rem

/-- parser.rs `parse_from`: tag "FROM" then take_until "SELECT".  Note the
parser consumes the clauses in the order FROM, SELECT, WHERE, FACET, SINCE,
UNTIL, LIMIT, TIMESERIES, so the input must literally start with "FROM". -/
def parse_from (input : List Char) : Option (List Char × List Char) :=
  match tagP "FROM".toList input with
  | none => none
  | some rem => splitUntil "SELECT".toList rem

/-- Outcome of a Rust function whose failures go through `.unwrap()`:
either a value or a panic. -/
inductive PResult (α : Type) where
  | ok : α → PResult α
  | panicked : PResult α
deriving DecidableEq, Repr

/-- The clause map produced by parser.rs `parse_nrql`; on success the map
holds exactly the eight keys FROM, SELECT, WHERE, FACET, SINCE, UNTIL,
LIMIT, MODE, modelled as a record with one field per key. -/
structure Fields where
  from_ : String
  select : String
  where_ : String
  facet : String
  since : String
  until_ : String
  limit : String
  mode : String
deriving DecidableEq, Repr

/-- parser.rs `parse_nrql`.  Every sub-parser result is `.unwrap()`ed in the
source, so a failing clause is a panic (`PResult.panicked`), not a returned
error: the `anyhow::Result` in the Rust signature is never `Err`. -/
def parse_nrql (input : String) : PResult Fields :=
  match parse_from input.toList with
  | none => .panicked
  | some (fromv, r1) =>
  match parse_select r1 with
  | none => .panicked
  | some (selectv, r2) =>
  match parse_where r2 with
  | none => .panicked
  | some (wherev, r3) =>
  match parse_facet r3 with
  | none => .panicked
  | some (facetv, r4) =>
  match parse_since r4 with
  | none => .panicked
  | some (sincev, r5) =>
  match parse_until r5 with
  | none => .panicked
  | some (untilv, r6) =>
  match parse_limit r6 with
  | none => .panicked
  | some (limitv, r7) =>
  match parse_timeseries r7 with
  | none => .panicked
  | some (modev, _) =>
    .ok
      { from_ := (trimChars fromv).asString
        select := (trimChars selectv).asString
        where_ := (trimChars wherev).asString
        facet := (trimChars facetv).asString
        since := (trimChars sincev).asString
        until_ := (trimChars untilv).asString
        limit := (trimChars limitv).asString
        mode := (trimChars modev).asString }

/-- query.rs `NRQLQuery`: the structured form of one query. -/
structure NRQLQuery where
  from_ : String
  select : String
  where_ : String
  facet : Option String
  since : Option String
  until_ : Option String
  limit : Option String
  mode : Option String
deriving DecidableEq, Repr

/-- query.rs `QueryType`. -/
inductive QueryType where
  | timeseries (q : NRQLQuery)
  | log (q : NRQLQuery)
deriving DecidableEq, Repr

/-- query.rs `QueryType::from`: classification by presence of the `mode`
field alone. -/
def QueryType.fromNRQL (nrql : NRQLQuery) : QueryType :=
  match nrql.mode with
  | some _ => .timeseries nrql
  | none => .log nrql

/-- Modelled from the spec: the conversion from `parse_nrql`'s clause map to
the structured `ParsedQuery` is not under src/ (query.rs's `to_nrql` names
`parse_nrql` but the map-to-struct glue is absent; `from_captures` plays the
same role for the regex iteration).  Per the spec's data model, each clause
becomes the corresponding field; `parse_nrql` only succeeds with every
clause present, so the optional fields are all `some`. -/
def NRQLQuery.ofFields (f : Fields) : NRQLQuery :=
  { from_ := f.from_
    select := f.select
    where_ := f.where_
    facet := some f.facet
    since := some f.since
    until_ := some f.until_
    limit := some f.limit
    mode := some f.mode }

/-- query.rs `NRQLQuery::to_string` (the Rust returns `Result<String>` but
never errs).  Faithful to the source, including the misspelled literal
"TIMSERIES" in the value-alias comparison and the lower-case since/until/
limit keywords. -/
def NRQLQuery.to_string (q : NRQLQuery) : String :=
  let s := "SELECT " ++ q.select
  let s := if q.mode == some "TIMSERIES" then s ++ " as value" else s
  let s := s ++ " FROM " ++ q.from_
  let s := s ++ " WHERE " ++ q.where_
  let s := match q.facet with | some v => s ++ " FACET " ++ v | none => s
  let s := match q.since with | some v => s ++ " since " ++ v | none => s
  let s := match q.until_ with | some v => s ++ " until " ++ v | none => s
  let s := match q.limit with | some v => s ++ " limit " ++ v | none => s
  match q.mode with
  | some m => s ++ " " ++ m
  | none => s

/-- app.rs `ALL_COLUMN_SEARCH` template. -/
def ALL_COLUMN_SEARCH : String :=
  "SELECT * FROM Log WHERE allColumnSearch('$', insensitive: true)"

/-- Rust `str::replace` with a `char` pattern (replaces every occurrence). -/
def replaceChar (c : Char) (repl : List Char) : List Char → List Char
  | [] => []
  | x :: rest =>
    if x == c then repl ++ replaceChar c repl rest
    else x :: replaceChar c repl rest

/-- main.rs listen, parse-failure branch: `ALL_COLUMN_SEARCH.replace('$', &query)`. -/
def fallbackText (raw : String) : String :=
  (replaceChar '$' raw.toList ALL_COLUMN_SEARCH.toList).asString

/-- The spec's end-to-end example query, written in the clause order the
parser actually accepts (FROM first). -/
def exTimeseriesQuery : String :=
  "FROM Transaction SELECT average(duration) WHERE appName = x FACET host SINCE 1 hour ago UNTIL now LIMIT 5 TIMESERIES"

/-- The clause map `parse_nrql` produces for `exTimeseriesQuery`. -/
def exTimeseriesFields : Fields :=
  { from_ := "Transaction"
    select := "average(duration)"
    where_ := "appName = x"
    facet := "host"
    since := "1 hour ago"
    until_ := "now"
    limit := "5"
    mode := "TIMESERIES" }

/-- A query whose final mode token is TABLE rather than TIMESERIES. -/
def exTableQuery : String :=
  "FROM Log SELECT * WHERE x FACET f SINCE a UNTIL b LIMIT 5 TABLE"

/-- The clause map `parse_nrql` produces for `exTableQuery`. -/
def exTableFields : Fields :=
  { from_ := "Log"
    select := "*"
    where_ := "x"
    facet := "f"
    since := "a"
    until_ := "b"
    limit := "5"
    mode := "TABLE" }

/-- A structured query with no mode field, as the regex iteration's
`from_captures` can produce (`parse_nrql` itself never omits the mode). -/
def exLogNRQL : NRQLQuery :=
  { from_ := "Log"
    select := "*"
    where_ := "x"
    facet := none
    since := none
    until_ := none
    limit := none
    mode := none }

/-- Helper: the mode token a successful `parse_timeseries` returns is the
literal TIMESERIES or the literal TABLE. -/
theorem parse_timeseries_token (input m r : List Char)
    (h : parse_timeseries input = some (m, r)) :
    m = "TIMESERIES".toList ∨ m = "TABLE".toList := by
  unfold parse_timeseries at h
  split at h
  · left; simp_all
  · split at h
    · right; simp_all
    · simp_all

/-- Helper: the MODE entry of every successful `parse_nrql` result is the
string TIMESERIES or the string TABLE. -/
theorem parse_nrql_mode (s : String) (f : Fields) (h : parse_nrql s = .ok f) :
    f.mode = "TIMESERIES" ∨ f.mode = "TABLE" := by
  unfold parse_nrql at h
  cases h1 : parse_from s.toList with
  | none => rw [h1] at h; exact PResult.noConfusion h
  | some p1 =>
  obtain ⟨fromv, r1⟩ := p1
  rw [h1] at h; dsimp only at h
  cases h2 : parse_select r1 with
  | none => rw [h2] at h; exact PResult.noConfusion h
  | some p2 =>
  obtain ⟨selectv, r2⟩ := p2
  rw [h2] at h; dsimp only at h
  cases h3 : parse_where r2 with
  | none => rw [h3] at h; exact PResult.noConfusion h
  | some p3 =>
  obtain ⟨wherev, r3⟩ := p3
  rw [h3] at h; dsimp only at h
  cases h4 : parse_facet r3 with
  | none => rw [h4] at h; exact PResult.noConfusion h
  | some p4 =>
  obtain ⟨facetv, r4⟩ := p4
  rw [h4] at h; dsimp only at h
  cases h5 : parse_since r4 with
  | none => rw [h5] at h; exact PResult.noConfusion h
  | some p5 =>
  obtain ⟨sincev, r5⟩ := p5
  rw [h5] at h; dsimp only at h
  cases h6 : parse_until r5 with
  | none => rw [h6] at h; exact PResult.noConfusion h
  | some p6 =>
  obtain ⟨untilv, r6⟩ := p6
  rw [h6] at h; dsimp only at h
  cases h7 : parse_limit r6 with
  | none => rw [h7] at h; exact PResult.noConfusion h
  | some p7 =>
  obtain ⟨limitv, r7⟩ := p7
  rw [h7] at h; dsimp only at h
  cases h8 : parse_timeseries r7 with
  | none => rw [h8] at h; exact PResult.noConfusion h
  | some p8 =>
  obtain ⟨modev, r8⟩ := p8
  rw [h8] at h; dsimp only at h
  injection h with h'
  subst h'
  dsimp only
  rcases parse_timeseries_token r7 modev r8 h8 with h9 | h9 <;> subst h9
  · left; decide
  · right; decide

/-- Helper: any SELECT-led input makes `parse_nrql` panic at the very first
sub-parser, because `parse_from` demands the literal FROM at the head. -/
theorem parse_nrql_select_led (r : String) :
    parse_nrql ("SELECT " ++ r) = PResult.panicked := rfl

/-- Helper: every serialized query starts with the text SELECT
followed by a space. -/
theorem to_string_select_led (q : NRQLQuery) :
    ∃ r, NRQLQuery.to_string q = "SELECT " ++ r := by
  rcases q with ⟨f, sel, w, fc, si, un, li, mo⟩
  unfold NRQLQuery.to_string
  dsimp only
  cases fc <;> cases si <;> cases un <;> cases li <;> cases mo <;> dsimp only <;>
    (try split) <;> simp only [String.append_assoc] <;> exact ⟨_, rfl⟩

/-- C1 counterexample: the claim says the TIMESERIES token is the sole
classification signal (absent means Log), but `exTableQuery` parses
successfully, contains no TIMESERIES token anywhere, and is still
classified TimeSeries, because `parse_timeseries` equally accepts the
TABLE token as the mode. -/
theorem c1_counterexample :
    parse_nrql exTableQuery = PResult.ok exTableFields ∧
    hasSubstr "TIMESERIES".toList exTableQuery.toList = false ∧
    QueryType.fromNRQL (NRQLQuery.ofFields exTableFields) =
      QueryType.timeseries (NRQLQuery.ofFields exTableFields) :=
  ⟨by decide, by decide, rfl⟩

/-- C1 (amended): classification of a parsed query is decided solely by the
mode token, which is TIMESERIES or TABLE: when the structure's mode field
is present the query is classified TimeSeries, when it is absent it is
classified Log, and every string `parse_nrql` accepts carries a mode entry
equal to TIMESERIES or TABLE; no other clause affects the classification. -/
theorem c1_classification_by_mode_token :
    (∀ q : NRQLQuery, q.mode ≠ none →
        QueryType.fromNRQL q = QueryType.timeseries q) ∧
    (∀ q : NRQLQuery, q.mode = none → QueryType.fromNRQL q = QueryType.log q) ∧
    (∀ (s : String) (f : Fields), parse_nrql s = PResult.ok f →
        f.mode = "TIMESERIES" ∨ f.mode = "TABLE") := by
  refine ⟨?_, ?_, fun s f h => parse_nrql_mode s f h⟩
  · intro q h
    cases hm : q.mode with
    | none => exact absurd hm h
    | some m => unfold QueryType.fromNRQL; rw [hm]
  · intro q h
    unfold QueryType.fromNRQL; rw [h]

/-- C1 witness: the amended classification rule applied at concrete queries,
discharging each hypothesis. -/
theorem c1_classification_by_mode_token_witness :
    QueryType.fromNRQL (NRQLQuery.ofFields exTableFields) =
      QueryType.timeseries (NRQLQuery.ofFields exTableFields) ∧
    QueryType.fromNRQL exLogNRQL = QueryType.log exLogNRQL ∧
    (exTableFields.mode = "TIMESERIES" ∨ exTableFields.mode = "TABLE") :=
  ⟨c1_classification_by_mode_token.1 (NRQLQuery.ofFields exTableFields) (by decide),
   c1_classification_by_mode_token.2.1 exLogNRQL (by decide),
   c1_classification_by_mode_token.2.2 exTableQuery exTableFields (by decide)⟩

/-- C2: round-trip fails for every query.  The spec's example-style input
parses, but its serialization starts with SELECT while `parse_nrql` demands
FROM first, so re-parsing the serialization of any parse panics instead of
reproducing the structured fields (the session save/load path re-parses
serialized queries, so this contradicts the program's own usage). -/
theorem c2_roundtrip_fails :
    parse_nrql exTimeseriesQuery = PResult.ok exTimeseriesFields ∧
    (NRQLQuery.ofFields exTimeseriesFields).to_string =
      "SELECT average(duration) FROM Transaction WHERE appName = x FACET host since 1 hour ago until now limit 5 TIMESERIES" ∧
    parse_nrql (NRQLQuery.ofFields exTimeseriesFields).to_string =
      PResult.panicked ∧
    (∀ q : NRQLQuery,
        parse_nrql (NRQLQuery.to_string q) = PResult.panicked) := by
  have hall : ∀ q : NRQLQuery,
      parse_nrql (NRQLQuery.to_string q) = PResult.panicked := by
    intro q
    obtain ⟨r, hr⟩ := to_string_select_led q
    rw [hr, parse_nrql_select_led]
  exact ⟨by decide, by decide, hall _, hall⟩

/-- C3: the input "banana soup" (no FROM/SELECT structure) makes
`parse_nrql` panic rather than return an error, so the listener's fallback
branch that builds the all-column-search query is unreachable; and even the
fallback text itself (which matches the claim's expected effective query
exactly) would panic `parse_nrql`, being SELECT-led. -/
theorem c3_fallback_unreachable :
    parse_nrql "banana soup" = PResult.panicked ∧
    fallbackText "banana soup" =
      "SELECT * FROM Log WHERE allColumnSearch('banana soup', insensitive: true)" ∧
    parse_nrql (fallbackText "banana soup") = PResult.panicked :=
  ⟨by decide, by decide, by decide⟩

/-- C4: serialization never annotates the select clause of a TimeSeries
query with the value alias, because `to_string` compares the mode with the
misspelled literal "TIMSERIES", which no parse ever produces; the
misspelled mode is exactly the one that would trigger the annotation. -/
theorem c4_value_alias_never_added :
    (NRQLQuery.ofFields exTimeseriesFields).mode = some "TIMESERIES" ∧
    hasSubstr "as value".toList
      ((NRQLQuery.ofFields exTimeseriesFields).to_string).toList = false ∧
    hasSubstr "as value".toList
      (NRQLQuery.to_string
        { NRQLQuery.ofFields exTimeseriesFields with
          mode := some "TIMSERIES" }).toList = true := by
  decide

/-- Non-NaN f64 values: exact rationals extended with the signed infinities
(the modelled code only compares values, so this is exact). -/
inductive F64 where
  | neginf
  | fin (q : ℚ)
  | posinf
deriving DecidableEq, Repr

/-- Comparison of non-NaN doubles. -/
def F64.le : F64 → F64 → Bool
  | .neginf, _ => true
  | _, .posinf => true
  | .posinf, .fin _ => false
  | .posinf, .neginf => false
  | .fin _, .neginf => false
  | .fin a, .fin b => decide (a ≤ b)

/-- Rust `f64::min` on non-NaN arguments. -/
def F64.min (a b : F64) : F64 := if F64.le a b then a else b

/-- Rust `f64::max` on non-NaN arguments. -/
def F64.max (a b : F64) : F64 := if F64.le a b then b else a

/-- The exact integer value of Rust `f64::MAX` (the largest finite double,
2^1024 - 2^971), written as a literal. -/
def f64MAXn : ℕ := 179769313486231570814527423731704356798070567525844996598917476803157260780028538760589558632766878171540458953514382464234321326889464182768467546703537516986049910576551282076245490090389328944075868508455133942304583236903222948165808559332123348274797826204144723168738177180919299881250404026184124858368

/-- Rust `f64::MAX` as an F64 value. -/
def f64MAX : F64 := .fin (f64MAXn : ℚ)

/-- backend.rs `TimeseriesResult`: one backend time-series row. -/
structure TimeseriesResult where
  begin_time_seconds : F64
  end_time_seconds : F64
  facet : Option String
  value : F64
deriving DecidableEq, Repr

/-- backend.rs `Bounds`. -/
structure Bounds where
  mins : F64 × F64
  maxes : F64 × F64
deriving DecidableEq, Repr

/-- One iteration of the bounds loop in backend.rs `refresh_timeseries`
(lines 98-104): component-wise min/max against the row's
(end-time, value) pair. -/
def boundsStep (b : Bounds) (point : TimeseriesResult) : Bounds :=
  { mins := (F64.min b.mins.1 point.end_time_seconds,
             F64.min b.mins.2 point.value),
    maxes := (F64.max b.maxes.1 point.end_time_seconds,
              F64.max b.maxes.2 point.value) }

/-- backend.rs `refresh_timeseries` lines 95-104: the single bounds pass,
with `min_bounds` initialized to `(f64::MAX, f64::MAX)` and `max_bounds`
to `(0, 0)`. -/
def computeBounds (data : List TimeseriesResult) : Bounds :=
  data.foldl boundsStep { mins := (f64MAX, f64MAX), maxes := (.fin 0, .fin 0) }

/-- The spec's bounds example: end-times 10, 20, 30 and values 1, 5, 3. -/
def exampleRows : List TimeseriesResult :=
  [ { begin_time_seconds := .fin 5, end_time_seconds := .fin 10,
      facet := none, value := .fin 1 },
    { begin_time_seconds := .fin 15, end_time_seconds := .fin 20,
      facet := none, value := .fin 5 },
    { begin_time_seconds := .fin 25, end_time_seconds := .fin 30,
      facet := none, value := .fin 3 } ]

/-- Helper: the bounds fold decomposes into four independent per-axis
folds over the rows. -/
theorem computeBounds_aux (rows : List TimeseriesResult) (b : Bounds) :
    rows.foldl boundsStep b =
      { mins := ((rows.map (·.end_time_seconds)).foldl F64.min b.mins.1,
                 (rows.map (·.value)).foldl F64.min b.mins.2),
        maxes := ((rows.map (·.end_time_seconds)).foldl F64.max b.maxes.1,
                  (rows.map (·.value)).foldl F64.max b.maxes.2) } := by
  induction rows generalizing b with
  | nil => rfl
  | cons r rest ih => simpa using ih (boundsStep b r)

/-- C5 counterexample: the claim says the mins accumulator is initialized
to (+infinity, +infinity), but the code initializes it to
(f64::MAX, f64::MAX), the largest finite double — observable on an empty
row set, where the computed mins is finite, not the infinity that f64 also
has available. -/
theorem c5_counterexample :
    (computeBounds []).mins = (f64MAX, f64MAX) ∧
    (computeBounds []).mins ≠ (F64.posinf, F64.posinf) := by
  exact ⟨rfl, by decide⟩

/-- C5 (amended): bounds are computed in a single pass over all rows with
mins initialized to (f64::MAX, f64::MAX) — the largest finite double,
standing in for +infinity — and maxes to (0, 0), folding each row's
(end-time, value) pair in via component-wise min and max, each axis
independent of the others; on the spec's example rows (end-times 10, 20,
30, values 1, 5, 3) the computed maxes are (30, 5). -/
theorem c5_bounds_single_pass :
    (∀ rows : List TimeseriesResult,
        computeBounds rows =
          { mins := ((rows.map (·.end_time_seconds)).foldl F64.min f64MAX,
                     (rows.map (·.value)).foldl F64.min f64MAX),
            maxes := ((rows.map (·.end_time_seconds)).foldl F64.max (.fin 0),
                      (rows.map (·.value)).foldl F64.max (.fin 0)) }) ∧
    (computeBounds exampleRows).maxes = (F64.fin 30, F64.fin 5) ∧
    (computeBounds exampleRows).mins = (F64.fin 10, F64.fin 1) := by
  refine ⟨fun rows => computeBounds_aux rows _, by decide, by decide⟩

/-- Point list of one facet, as in backend.rs (`Vec<(f64, f64)>`). -/
abbrev Points := List (F64 × F64)

/-- Lookup in the facet map; backend.rs uses a `BTreeMap<String, Vec<..>>`,
modelled as an association list with unique keys (key order is immaterial
to the claims, which only concern per-key contents). -/
def lookupF : List (String × Points) → String → Option Points
  | [], _ => none
  | (k, ps) :: rest, key => if k = key then some ps else lookupF rest key

/-- `BTreeMap::contains_key`. -/
def containsKeyF (m : List (String × Points)) (k : String) : Bool :=
  (lookupF m k).isSome

/-- `facets.get_mut(facet).unwrap().extend_from_slice(&[p])`: append one
point to the entry holding `key`. -/
def appendPoint : List (String × Points) → String → (F64 × F64) → List (String × Points)
  | [], _, _ => []
  | (k, ps) :: rest, key, p =>
    if k = key then (k, ps ++ [p]) :: rest else (k, ps) :: appendPoint rest key p

/-- backend.rs line 109: `data.facet.unwrap_or(String::from("value"))`. -/
def facetLabel (r : TimeseriesResult) : String := r.facet.getD "value"

/-- One iteration of the facet-grouping loop in backend.rs
`refresh_timeseries` (lines 108-121): an already-seen facet gets the
(end-time, value) point appended; a newly-seen facet is inserted with the
single point (begin-time, value). -/
def insertRow (facets : List (String × Points)) (r : TimeseriesResult) :
    List (String × Points) :=
  if containsKeyF facets (facetLabel r) then
    appendPoint facets (facetLabel r) (r.end_time_seconds, r.value)
  else
    facets ++ [(facetLabel r, [(r.begin_time_seconds, r.value)])]

/-- backend.rs `refresh_timeseries` lines 106-121: the facet-grouping pass. -/
def groupFacets (rows : List TimeseriesResult) : List (String × Points) :=
  rows.foldl insertRow []

/-- The (end-time, value) pair of a row. -/
def endPoint (r : TimeseriesResult) : F64 × F64 := (r.end_time_seconds, r.value)

/-- The point sequence the C6 claim predicts for the rows of one facet
label, in arrival order: the first row contributes (begin-time, value),
every later row (end-time, value). -/
def specFacetPoints (rows : List TimeseriesResult) : Option Points :=
  match rows with
  | [] => none
  | r :: rest => some ((r.begin_time_seconds, r.value) :: rest.map endPoint)

/-- Helper: `appendPoint` changes exactly the entry of its key. -/
theorem lookupF_appendPoint (m : List (String × Points)) (key l : String)
    (p : F64 × F64) :
    lookupF (appendPoint m key p) l =
      if key = l then (lookupF m l).map (fun ps => ps ++ [p])
      else lookupF m l := by
  induction m with
  | nil => by_cases h : key = l <;> simp [appendPoint, lookupF, h]
  | cons kv rest ih =>
    obtain ⟨k, ps⟩ := kv
    by_cases hk : k = key
    · subst hk
      by_cases hl : k = l <;> simp [appendPoint, lookupF, hl]
    · by_cases hl : k = l
      · subst hl
        have : key ≠ k := fun h => hk h.symm
        simp [appendPoint, lookupF, hk, this]
      · simp [appendPoint, lookupF, hk, hl, ih]

/-- Helper: lookup distributes over list append, first match winning. -/
theorem lookupF_append (m m' : List (String × Points)) (l : String) :
    lookupF (m ++ m') l =
      match lookupF m l with
      | some ps => some ps
      | none => lookupF m' l := by
  induction m with
  | nil => simp [lookupF]
  | cons kv rest ih =>
    obtain ⟨k, ps⟩ := kv
    by_cases hk : k = l <;> simp [lookupF, hk, ih]

/-- Helper: the invariant of the facet-grouping fold, generalized over the
accumulator. -/
theorem lookupF_foldl (rows : List TimeseriesResult)
    (acc : List (String × Points)) (l : String) :
    lookupF (rows.foldl insertRow acc) l =
      match lookupF acc l with
      | some ps =>
        some (ps ++ (rows.filter (fun r => facetLabel r == l)).map endPoint)
      | none => specFacetPoints (rows.filter (fun r => facetLabel r == l)) := by
  induction rows generalizing acc with
  | nil => cases h : lookupF acc l <;> simp [specFacetPoints, h]
  | cons r rest ih =>
    rw [List.foldl_cons, ih (insertRow acc r)]
    by_cases hr : facetLabel r = l
    · cases hacc : lookupF acc l with
      | some ps =>
        have hcont : containsKeyF acc (facetLabel r) = true := by
          rw [hr]; simp [containsKeyF, hacc]
        rw [hr] at hcont
        simp [insertRow, hcont, lookupF_appendPoint, hacc,
          List.filter_cons, hr, specFacetPoints, endPoint]
      | none =>
        have hcont : containsKeyF acc (facetLabel r) = false := by
          rw [hr]; simp [containsKeyF, hacc]
        rw [hr] at hcont
        simp [insertRow, hcont, lookupF_append, hacc, lookupF,
          List.filter_cons, hr, specFacetPoints, endPoint]
    · have hstay : lookupF (insertRow acc r) l = lookupF acc l := by
        unfold insertRow
        by_cases hc : containsKeyF acc (facetLabel r) = true
        · simp [hc, lookupF_appendPoint, hr]
        · simp only [hc, if_false, Bool.false_eq_true]
          rw [lookupF_append]
          have hnone :
              lookupF [(facetLabel r, [(r.begin_time_seconds, r.value)])] l =
                none := by
            simp [lookupF, hr]
          rw [hnone]
          cases lookupF acc l <;> rfl
      rw [hstay]
      have hfalse : (facetLabel r == l) = false := by simp [hr]
      cases hacc : lookupF acc l <;> simp [List.filter_cons, hfalse, hacc]

/-- C6: rows are grouped by facet label, rows lacking a facet falling under
the default label "value" (via `facetLabel`); within each facet, points
appear in arrival order as (end-time, value) pairs except that the very
first point of a newly-seen facet is (begin-time, value).  Concretely, the
example rows (all facet-less) all land under "value", the first as
(begin-time 5, value 1), the rest as (end-time, value). -/
theorem c6_facet_grouping :
    (∀ (rows : List TimeseriesResult) (l : String),
        lookupF (groupFacets rows) l =
          specFacetPoints (rows.filter (fun r => facetLabel r == l))) ∧
    groupFacets exampleRows =
      [("value",
        [(F64.fin 5, F64.fin 1), (F64.fin 20, F64.fin 5),
         (F64.fin 30, F64.fin 3)])] := by
  constructor
  · intro rows l
    have h := lookupF_foldl rows [] l
    simpa [groupFacets, lookupF] using h
  · decide

/-- One iteration of the polling loop in backend.rs `refresh_timeseries`
(lines 83-134), as seen by one worker: `msgs` is the control messages its
non-blocking drain finds queued at the top of the iteration, and `tick`
whether this iteration both passes the coarse wall-clock gate
(`Utc::now().second() % 5 == 0`) and completes its request, so that a
payload is sent.  The drain consumes messages one at a time and returns
(state Cancelled) as soon as one equals the worker's own canonical query
text; cancellation is checked nowhere else, so an iteration that starts a
request always finishes it and sends its payload. -/
structure WorkerIter where
  msgs : List String
  tick : Bool
deriving DecidableEq, Repr

/-- Trace semantics of the worker loop for the query whose canonical text
is `qs`: the indices (counted from `i`) of the iterations that send a
payload.  An iteration whose drain finds `qs` emits nothing and ends the
run; otherwise the iteration emits iff it ticks, and the loop repeats. -/
def workerRunFrom (qs : String) : ℕ → List WorkerIter → List ℕ
  | _, [] => []
  | i, it :: rest =>
    if qs ∈ it.msgs then []
    else (if it.tick then [i] else []) ++ workerRunFrom qs (i + 1) rest

/-- The payload-emission trace of one worker over a whole schedule. -/
def workerRun (qs : String) (sched : List WorkerIter) : List ℕ :=
  workerRunFrom qs 0 sched

/-- Helper: once the deletion message is in some iteration's drain, the run
truncates to the iterations before it. -/
theorem workerRunFrom_append_cancel (qs : String) (post : List WorkerIter)
    (itc : WorkerIter) (hdel : qs ∈ itc.msgs) :
    ∀ (pre : List WorkerIter) (i : ℕ),
      workerRunFrom qs i (pre ++ itc :: post) = workerRunFrom qs i pre := by
  intro pre
  induction pre with
  | nil => intro i; simp [workerRunFrom, hdel]
  | cons it rest ih =>
    intro i
    by_cases h : qs ∈ it.msgs <;> simp [workerRunFrom, h, ih]

/-- Helper: every emitted index lies in the window of its schedule. -/
theorem workerRunFrom_lb (qs : String) (sched : List WorkerIter) :
    ∀ (i j : ℕ), j ∈ workerRunFrom qs i sched → i ≤ j ∧ j < i + sched.length := by
  induction sched with
  | nil => intro i j h; simp [workerRunFrom] at h
  | cons it rest ih =>
    intro i j h
    by_cases hm : qs ∈ it.msgs
    · simp [workerRunFrom, hm] at h
    · simp only [workerRunFrom, hm, if_false] at h
      rcases List.mem_append.mp h with h1 | h1
      · have hji : j = i := by
          by_cases ht : it.tick
          · simpa [ht] using h1
          · simp [ht] at h1
        subst hji
        simp only [List.length_cons]
        omega
      · have := ih (i + 1) j h1
        simp only [List.length_cons]
        omega

/-- Helper: emitted indices are strictly increasing (each iteration sends
at most one payload, and iterations are sequential). -/
theorem workerRunFrom_pairwise (qs : String) (sched : List WorkerIter) :
    ∀ i : ℕ, (workerRunFrom qs i sched).Pairwise (· < ·) := by
  induction sched with
  | nil => intro i; simp [workerRunFrom]
  | cons it rest ih =>
    intro i
    by_cases hm : qs ∈ it.msgs
    · simp [workerRunFrom, hm]
    · simp only [workerRunFrom, hm, if_false]
      by_cases ht : it.tick
      · simp only [ht, if_true]
        refine List.Pairwise.cons ?_ (ih (i + 1))
        intro j hj
        have := workerRunFrom_lb qs rest (i + 1) j hj
        omega
      · simpa [ht] using ih (i + 1)

/-- Helper: a strictly increasing list whose members are all one value has
at most one member. -/
theorem pairwise_all_eq_len (l : List ℕ) (v : ℕ)
    (hp : l.Pairwise (· < ·)) (hv : ∀ x ∈ l, x = v) : l.length ≤ 1 := by
  match l with
  | [] => simp
  | [a] => simp
  | a :: b :: t =>
    have hab : a < b := (List.pairwise_cons.mp hp).1 b (by simp)
    have ha : a = v := hv a (by simp)
    have hb : b = v := hv b (by simp)
    omega

/-- C7: cancellation.  Take any worker schedule `pre ++ itc :: post` in
which iteration `itc` is the first whose drain holds the DeleteQuery
message for this worker's query `qs` — so the deletion was published after
the drain of the last iteration of `pre` (i.e. during that iteration, at
the earliest) and before `itc`'s drain.  Then (1) the worker's emission
trace equals the trace over `pre` alone: the deletion is observed at the
top of `itc`'s loop iteration, exactly once, and nothing is emitted from
then on; (2) every emitted payload comes from an iteration before `itc`;
(3) at most one payload is emitted at or after the iteration during which
the deletion was published — the already-in-flight one, which is never
aborted (the drain runs before the request, never during it). -/
theorem c7_cancellation (qs : String) (pre post : List WorkerIter)
    (itc : WorkerIter) (hdel : qs ∈ itc.msgs) :
    workerRun qs (pre ++ itc :: post) = workerRun qs pre ∧
    (∀ j ∈ workerRun qs (pre ++ itc :: post), j < pre.length) ∧
    ((workerRun qs (pre ++ itc :: post)).filter
        (fun j => decide (pre.length ≤ j + 1))).length ≤ 1 := by
  have htrunc : workerRun qs (pre ++ itc :: post) = workerRun qs pre :=
    workerRunFrom_append_cancel qs post itc hdel pre 0
  have hlt : ∀ j ∈ workerRun qs (pre ++ itc :: post), j < pre.length := by
    intro j hj
    rw [htrunc] at hj
    have := workerRunFrom_lb qs pre 0 j hj
    omega
  refine ⟨htrunc, hlt, ?_⟩
  have hpw : (workerRun qs (pre ++ itc :: post)).Pairwise (· < ·) := by
    rw [htrunc]; exact workerRunFrom_pairwise qs pre 0
  refine pairwise_all_eq_len _ (pre.length - 1)
    (List.Pairwise.filter _ hpw) ?_
  intro x hx
  have hmem := List.mem_of_mem_filter hx
  have hpred := List.of_mem_filter hx
  have h1 := hlt x hmem
  simp only [decide_eq_true_eq] at hpred
  omega

/-- C7 witness: the cancellation theorem applied to a concrete three-
iteration schedule whose middle drain holds the deletion message. -/
theorem c7_cancellation_witness :
    workerRun "q1" ([⟨[], true⟩] ++ ⟨["q1"], true⟩ :: [⟨[], true⟩]) =
      workerRun "q1" [⟨[], true⟩] ∧
    (∀ j ∈ workerRun "q1" ([⟨[], true⟩] ++ ⟨["q1"], true⟩ :: [⟨[], true⟩]),
        j < [(⟨[], true⟩ : WorkerIter)].length) ∧
    ((workerRun "q1" ([⟨[], true⟩] ++ ⟨["q1"], true⟩ :: [⟨[], true⟩])).filter
        (fun j =>
          decide ([(⟨[], true⟩ : WorkerIter)].length ≤ j + 1))).length ≤ 1 :=
  c7_cancellation "q1" [⟨[], true⟩] [⟨[], true⟩] ⟨["q1"], true⟩ (by decide)

/-- Outcome of the HTTP exchange as the client code observes it: the send
failed, or a response arrived whose body either deserializes into the
nested `QueryResponse` envelope's row list or does not. -/
inductive Response (α : Type) where
  | failure
  | body (deser : Except String (List α))

/-- client.rs `NewRelicClient::query` (lines 61-87): result handling.  A
deserialization failure goes through `map_err(|e| anyhow!(e))` and the `?`
operator into a returned `Err`; a failed send returns the fixed error. -/
def client_query (α : Type) (r : Response α) : Except String (List α) :=
  match r with
  | .failure => .error "Query returned no results!"
  | .body (.ok rows) => .ok rows
  | .body (.error e) => .error e

/-- What the legacy backend.rs `NewRelicClient::query` (lines 193-229) can
do: it returns `Option<Vec<T>>` and `.expect()`s the deserialization, so a
malformed body is a process panic, not a value. -/
inductive BackendQueryOutcome (α : Type) where
  | results (rows : List α)
  | noResponse
  | panicked (msg : String)

/-- backend.rs `NewRelicClient::query` (lines 193-229): result handling.
The `.expect("ERROR: Error in response deserialization schema")` on the
body deserialization is modelled by the panic outcome. -/
def backend_query (α : Type) (r : Response α) : BackendQueryOutcome α :=
  match r with
  | .failure => .noResponse
  | .body (.ok rows) => .results rows
  | .body (.error _) =>
    .panicked "ERROR: Error in response deserialization schema"

/-- C8: on a response whose body fails to deserialize, the client.rs query
returns a recoverable `Err` carrying the deserialization error, as the
claim states; but the copy of `NewRelicClient::query` inside backend.rs
panics on the same input through `.expect`, crashing the process instead
of returning an error. -/
theorem c8_deserialization_failure :
    (∀ e : String,
        client_query Unit (.body (.error e)) = Except.error e) ∧
    backend_query Unit (.body (.error "malformed envelope")) =
      BackendQueryOutcome.panicked
        "ERROR: Error in response deserialization schema" := by
  exact ⟨fun e => rfl, rfl⟩

/-- Outcome of dispatching one query execution through the client, as the
listener observes it: data came back, the result set was empty, or the
call errored. -/
inductive ExecOutcome where
  | okData
  | okEmpty
  | err
deriving DecidableEq, Repr

/-- `HashSet::insert` on the listener's known-active set (main.rs
`queries`), modelled on a duplicate-free list. -/
def insertQ (qs : List String) (x : String) : List String :=
  if x ∈ qs then qs else qs ++ [x]

/-- Result of one AddQuery event: the updated known-active set and the
query text that was dispatched. -/
structure AddOutcome where
  queries : List String
  executed : String
deriving DecidableEq, Repr

/-- main.rs `listen`, one `UIEvent::AddQuery(raw)` arm (lines 156-209).
The parse outcome stands for `query.to_nrql()`'s `Result` (the match in
the source; per C3 the parser as written panics instead of producing the
`Err` case) and the execution outcome for the dispatched client call,
which is external.  In all three branches — Timeseries, Log, and the
parse-failure fallback — `queries.insert(query)` registers the original
raw text, and only runs when the execution returned non-empty data; the
dispatched text is the structured query's canonical serialization, or the
all-column-search rewrite in the fallback branch. -/
def addQueryStep (qs : List String) (raw : String)
    (parsed : Except String NRQLQuery) (exec : ExecOutcome) : AddOutcome :=
  match parsed with
  | .ok nq =>
    match QueryType.fromNRQL nq with
    | .timeseries q =>
      { executed := q.to_string
        queries :=
          match exec with
          | .okData => insertQ qs raw
          | .okEmpty => qs
          | .err => qs }
    | .log q =>
      { executed := q.to_string
        queries :=
          match exec with
          | .okData => insertQ qs raw
          | .okEmpty => qs
          | .err => qs }
  | .error _ =>
    { executed := fallbackText raw
      queries :=
        match exec with
        | .okData => insertQ qs raw
        | .okEmpty => qs
        | .err => qs }

/-- C9 counterexample: an AddQuery submission whose execution errors
registers nothing, so the claim's "on every AddQuery(raw) submission, the
Scheduler registers the query" is false: after this submission the
known-active set is still empty. -/
theorem c9_counterexample :
    (addQueryStep [] "my query"
        (Except.ok (NRQLQuery.ofFields exTimeseriesFields))
        ExecOutcome.err).queries = [] ∧
    "my query" ∉ (addQueryStep [] "my query"
        (Except.ok (NRQLQuery.ofFields exTimeseriesFields))
        ExecOutcome.err).queries := by
  exact ⟨rfl, by decide⟩

/-- C9 (amended): on an AddQuery(raw) submission the Scheduler registers
the query in its known-active set exactly when the dispatched execution
returns non-empty data, and the key it registers is the original unparsed
text raw — not the canonical or fallback-rewritten text that was
dispatched — in every parse branch; failed or empty executions leave the
set unchanged. -/
theorem c9_registration_keyed_by_raw :
    ∀ (qs : List String) (raw : String) (parsed : Except String NRQLQuery),
      (addQueryStep qs raw parsed ExecOutcome.okData).queries =
        insertQ qs raw ∧
      raw ∈ (addQueryStep qs raw parsed ExecOutcome.okData).queries ∧
      (addQueryStep qs raw parsed ExecOutcome.okEmpty).queries = qs ∧
      (addQueryStep qs raw parsed ExecOutcome.err).queries = qs := by
  intro qs raw parsed
  have hmem : raw ∈ insertQ qs raw := by
    unfold insertQ
    by_cases h : raw ∈ qs <;> simp [h]
  rcases parsed with e | nq
  · refine ⟨?_, ?_, ?_, ?_⟩ <;> simp [addQueryStep, hmem]
  · cases hq : QueryType.fromNRQL nq <;>
      refine ⟨?_, ?_, ?_, ?_⟩ <;> simp [addQueryStep, hq, hmem]

/-- Rust `str::contains` (substring test) on the two strings, as
app.rs `line.contains(&filter)` uses it. -/
def lineContains (line f : String) : Bool :=
  hasSubstr f.toList line.toList

/-- app.rs `add_filter`'s retain closure (lines 431-438): scan the entry's
lines and keep the entry as soon as one line contains the filter. -/
def anyLineContains : List String → String → Bool
  | [], _ => false
  | line :: rest, f =>
    if lineContains line f then true else anyLineContains rest f

/-- The app.rs `Logs` state `add_filter` touches: the active filter set
and the timestamp-keyed log map (`BTreeMap<String, Vec<String>>`,
modelled as an ordered association list). -/
structure LogsState where
  filters : List String
  logs : List (String × List String)
deriving DecidableEq, Repr

/-- app.rs `App::add_filter` (lines 427-445): insert the filter into the
active set (`HashSet::insert`) and retain exactly the entries with a
matching line (`BTreeMap::retain` keeps order and leaves kept values
untouched; the trailing list-state reset touches no log data). -/
def add_filter (st : LogsState) (f : String) : LogsState :=
  { filters := insertQ st.filters f
    logs := st.logs.filter (fun kv => anyLineContains kv.2 f) }

/-- Helper: `beginsWith` is exactly the prefix relation. -/
theorem beginsWith_iff (pat : List Char) :
    ∀ s : List Char, (beginsWith pat s = true ↔ ∃ t, s = pat ++ t) := by
  induction pat with
  | nil => intro s; simp [beginsWith]
  | cons a ta ih =>
    intro s
    cases s with
    | nil => simp [beginsWith]
    | cons b tb =>
      simp only [beginsWith, Bool.and_eq_true, beq_iff_eq, ih,
        List.cons_append, List.cons.injEq]
      constructor
      · rintro ⟨rfl, t, rfl⟩; exact ⟨t, rfl, rfl⟩
      · rintro ⟨t, rfl, rfl⟩; exact ⟨rfl, t, rfl⟩

/-- Helper: `hasSubstr` is exactly the substring relation. -/
theorem hasSubstr_iff (pat : List Char) :
    ∀ s : List Char,
      (hasSubstr pat s = true ↔ ∃ pre post, s = pre ++ pat ++ post) := by
  intro s
  induction s with
  | nil =>
    rw [hasSubstr, beginsWith_iff]
    constructor
    · rintro ⟨t, ht⟩
      rcases List.append_eq_nil.mp ht.symm with ⟨h1, h2⟩
      exact ⟨[], [], by simp [h1, h2]⟩
    · rintro ⟨pre, post, h⟩
      have h' := h.symm
      rw [List.append_assoc] at h'
      rcases List.append_eq_nil.mp h' with ⟨h1, h2⟩
      rcases List.append_eq_nil.mp h2 with ⟨h3, h4⟩
      exact ⟨[], by simp [h3]⟩
  | cons c rest ih =>
    rw [hasSubstr, Bool.or_eq_true, beginsWith_iff, ih]
    constructor
    · rintro (⟨t, ht⟩ | ⟨pre, post, h⟩)
      · exact ⟨[], t, by simp [ht]⟩
      · exact ⟨c :: pre, post, by simp [h]⟩
    · rintro ⟨pre, post, h⟩
      cases pre with
      | nil => exact Or.inl ⟨post, by simpa using h⟩
      | cons p pre2 =>
        right
        simp only [List.cons_append, List.cons.injEq] at h
        exact ⟨pre2, post, h.2⟩

/-- Helper: the retain closure's loop succeeds iff some line contains the
filter. -/
theorem anyLineContains_iff (lines : List String) (f : String) :
    anyLineContains lines f = true ↔
      ∃ line ∈ lines, lineContains line f = true := by
  induction lines with
  | nil => simp [anyLineContains]
  | cons l rest ih =>
    by_cases h : lineContains l f <;> simp [anyLineContains, h, ih]

/-- C10: `add_filter f` inserts `f` into the active filter set and keeps
exactly those log entries with at least one line containing `f` as a
substring; entries with no such line are removed, and kept entries
(timestamp and lines alike) are unchanged — membership of the whole
(timestamp, lines) pair is preserved. -/
theorem c10_add_filter :
    ∀ (st : LogsState) (f : String),
      f ∈ (add_filter st f).filters ∧
      ∀ kv : String × List String,
        (kv ∈ (add_filter st f).logs ↔
          kv ∈ st.logs ∧ ∃ line ∈ kv.2, ∃ pre post : List Char,
            line.toList = pre ++ f.toList ++ post) := by
  intro st f
  constructor
  · show f ∈ insertQ st.filters f
    unfold insertQ
    by_cases h : f ∈ st.filters <;> simp [h]
  · intro kv
    show kv ∈ st.logs.filter (fun kv => anyLineContains kv.2 f) ↔ _
    rw [List.mem_filter]
    simp [anyLineContains_iff, lineContains, hasSubstr_iff]

end OldRelic
